import Mathlib

/-!
Verification of the scoring core of the intellectual-humility survey app
(`src/app.py`).  The Python functions are shallowly embedded as Lean
definitions: ratings are integers, scores are exact rationals, the external
service outcome is an `Except` value, and Python's `round(x, 1)`
(banker's rounding to one decimal) is modelled on `ℚ`.
-/

/-- Model of Python's `str.strip()` on a character list: drop leading and
trailing whitespace (`Char.isWhitespace` stands in for Python's whitespace
class; the difference is irrelevant to every property below). -/
def pyStripList (l : List Char) : List Char :=
  ((l.dropWhile Char.isWhitespace).reverse.dropWhile Char.isWhitespace).reverse

/-- Model of Python's `str.strip()` on strings. -/
def pyStrip (s : String) : String :=
  String.mk (pyStripList s.data)

/-- Accumulate decimal digits into a natural number. -/
def digitsToNat (acc : ℕ) : List Char → ℕ
  | [] => acc
  | c :: rest => digitsToNat (10 * acc + (c.toNat - 48)) rest

/-- Parse a nonempty all-digit character list. -/
def pyIntOfDigits : List Char → Option ℕ
  | [] => none
  | l => if l.all Char.isDigit then some (digitsToNat 0 l) else none

/-- Model of Python's `int(s)` on an already-stripped string: an optional
sign followed by one or more decimal digits yields an integer, anything
else raises `ValueError` (here: `none`).  Python's digit-group underscores
are not modelled; no property below depends on them. -/
def pyInt (s : String) : Option ℤ :=
  match s.data with
  | '+' :: rest => (pyIntOfDigits rest).map (fun n => (n : ℤ))
  | '-' :: rest => (pyIntOfDigits rest).map (fun n => -(n : ℤ))
  | l => (pyIntOfDigits l).map (fun n => (n : ℤ))

/-- Lines 71-80 of `app.py`: strip the service's reply, try to parse it as
an integer, and fall back to `3` when parsing fails (`ValueError`) or the
parsed value lies outside `[1,5]`. -/
def interpretRating (content : String) : ℤ :=
  match pyInt (pyStrip content) with
  | some r => if r < 1 ∨ 5 < r then 3 else r
  | none => 3

/-- `interpret_answer_with_chatgpt` (lines 45-80): the service call itself
(line 62) sits outside any exception handler, so a failing call propagates
to the caller (`Except.error`); a successful reply is parsed by
`interpretRating`. -/
def interpret_answer_with_chatgpt (serviceOutcome : Except String String) :
    Except String ℤ :=
  match serviceOutcome with
  | Except.error e => Except.error e
  | Except.ok content => Except.ok (interpretRating content)

/-- Line 42 of `app.py`: this variant reverse-scores no question. -/
def REVERSE_SCORED : List ℕ := []

/-- Lines 89-91: invert the rating at ordinal `i` exactly when `i` is in
the reverse-scored index list. -/
def applyReverse (rev : List ℕ) (i : ℕ) (r : ℤ) : ℤ :=
  if i ∈ rev then 6 - r else r

/-- Lines 87-92: sum the (possibly inverted) enumerated ratings. -/
def total_score (rev : List ℕ) (ratings : List ℤ) : ℤ :=
  (ratings.enum.map (fun p => applyReverse rev p.1 p.2)).sum

/-- Round a rational to the nearest integer, ties to even — Python's
`round` on an exact value. -/
def roundHalfEven (q : ℚ) : ℤ :=
  if q - ⌊q⌋ < 1 / 2 then ⌊q⌋
  else if 1 / 2 < q - ⌊q⌋ then ⌊q⌋ + 1
  else if ⌊q⌋ % 2 = 0 then ⌊q⌋ else ⌊q⌋ + 1

/-- Model of Python's `round(x, 1)`: round to one decimal place. -/
def pyRound1 (q : ℚ) : ℚ :=
  (roundHalfEven (10 * q) : ℚ) / 10

/-- Lines 82-96 of `app.py` with the reverse-scored list as an explicit
argument: `final_score = round((total_score / 25) * 10, 1)` — the divisor
is the literal constant 25. -/
def calculate_final_score_with (rev : List ℕ) (ratings : List ℤ) : ℚ :=
  pyRound1 ((total_score rev ratings : ℚ) / 25 * 10)

/-- `calculate_final_score` as in the source, reading the module-level
`REVERSE_SCORED` list. -/
def calculate_final_score (ratings : List ℤ) : ℚ :=
  calculate_final_score_with REVERSE_SCORED ratings

/-- The four fixed advice texts returned by `provide_recommendations`
(lines 98-125), one constructor per returned string. -/
inductive RecommendationBand where
  | low
  | moderate
  | fairlyHigh
  | high
deriving DecidableEq

/-- Lines 98-125: band lookup; Python's chained `3 < score <= 6` is
reached only when `score <= 3` already failed, so the plain `elif`
conditions below are equivalent. -/
def provide_recommendations (score : ℚ) : RecommendationBand :=
  if score ≤ 3 then RecommendationBand.low
  else if score ≤ 6 then RecommendationBand.moderate
  else if score ≤ 8 then RecommendationBand.fairlyHigh
  else RecommendationBand.high

/-- Lines 189-192 of `main`: strip the collected answer and substitute the
placeholder when the result is empty. -/
def prepare_answer (a : String) : String :=
  if pyStrip a = "" then "No answer provided." else pyStrip a

/-- Model of Python's `str()` for a nonnegative float holding an exact
multiple of 0.1, as `final_score` always does: integer part, a dot, one
digit. -/
def floatStr (q : ℚ) : String :=
  toString (⌊q⌋ : ℤ) ++ "." ++ toString ((⌊q * 10⌋ : ℤ) % 10)

/-- Model of Python's `"\n".join`. -/
def joinLines : List String → String
  | [] => ""
  | [l] => l
  | l :: ls => l ++ "\n" ++ joinLines ls

/-- Lines 207-213 of `main`: the list of lines of the persisted blob — a
timestamp line, then per answer a `Q<i+1>:` line, an `Answer:` line and a
blank line, then the final-score line. -/
def file_content_lines (ts : String) (questions answers : List String)
    (final_score : ℚ) : List String :=
  ("Timestamp: " ++ ts)
    :: ((answers.enum.map (fun p =>
          ["Q" ++ toString (p.1 + 1) ++ ": " ++ questions.getD p.1 "",
           "Answer: " ++ p.2,
           ""])).flatten
        ++ ["Final Score: " ++ floatStr final_score])

/-- Line 214 of `main`: the serialized blob. -/
def file_text (ts : String) (questions answers : List String)
    (final_score : ℚ) : String :=
  joinLines (file_content_lines ts questions answers final_score)

/-- Ties-to-even rounding is the identity on integers. -/
lemma roundHalfEven_intCast (n : ℤ) : roundHalfEven ((n : ℚ)) = n := by
  norm_num [roundHalfEven, Int.floor_intCast]

/-- Rounding to one decimal is exact on values that are integer multiples
of one tenth. -/
lemma pyRound1_int_mul (q : ℚ) (n : ℤ) (h : 10 * q = (n : ℚ)) :
    pyRound1 q = q := by
  unfold pyRound1
  rw [h, roundHalfEven_intCast, ← h]
  ring

/-- With no reverse-scored index, enumeration contributes each rating
unchanged. -/
lemma enumFrom_noRev :
    ∀ (l : List ℤ) (n : ℕ),
      ((l.enumFrom n).map (fun p => applyReverse [] p.1 p.2)).sum = l.sum := by
  intro l
  induction l with
  | nil => intro n; simp
  | cons a t ih => intro n; simp [List.enumFrom, applyReverse, ih]

/-- With no reverse-scored index the total is the plain sum. -/
lemma total_score_nil (l : List ℤ) : total_score [] l = l.sum := by
  unfold total_score
  exact enumFrom_noRev l 0

/-- Closed form of the enumerated, possibly-inverted sum. -/
lemma total_enumFrom (rev : List ℕ) :
    ∀ (l : List ℤ) (n : ℕ),
      ((l.enumFrom n).map (fun p => applyReverse rev p.1 p.2)).sum
        = ∑ j in Finset.range l.length, applyReverse rev (n + j) (l.getD j 0) := by
  intro l
  induction l with
  | nil => intro n; simp
  | cons a t ih =>
      intro n
      have hsplit := Finset.sum_range_succ'
        (fun j => applyReverse rev (n + j) ((a :: t).getD j 0)) t.length
      simp only [List.enumFrom, List.map_cons, List.sum_cons, List.length_cons]
      rw [hsplit]
      simp only [List.getD_cons_succ, List.getD_cons_zero, Nat.add_zero]
      rw [ih (n + 1), add_comm]
      congr 1
      apply Finset.sum_congr rfl
      intro j _
      have hidx : n + 1 + j = n + (j + 1) := by omega
      rw [hidx]

/-- Index-wise closed form of `total_score`. -/
lemma total_score_eq (rev : List ℕ) (l : List ℤ) :
    total_score rev l
      = ∑ j in Finset.range l.length, applyReverse rev j (l.getD j 0) := by
  have h := total_enumFrom rev l 0
  simpa using h

/-- Reading back the position just written. -/
lemma getD_set_self :
    ∀ (l : List ℤ) (i : ℕ) (x : ℤ), i < l.length → (l.set i x).getD i 0 = x := by
  intro l
  induction l with
  | nil => intro i x h; simp at h
  | cons a t ih =>
      intro i x h
      cases i with
      | zero => simp
      | succ n =>
          simp only [List.set, List.getD_cons_succ]
          exact ih n x (by simpa using h)

/-- Writing one position leaves every other position unchanged. -/
lemma getD_set_ne :
    ∀ (l : List ℤ) (i j : ℕ) (x : ℤ), j ≠ i →
      (l.set i x).getD j 0 = l.getD j 0 := by
  intro l
  induction l with
  | nil => intro i j x h; simp
  | cons a t ih =>
      intro i j x h
      cases i with
      | zero =>
          cases j with
          | zero => exact absurd rfl h
          | succ m => simp [List.set]
      | succ n =>
          cases j with
          | zero => simp [List.set]
          | succ m =>
              simp only [List.set, List.getD_cons_succ]
              exact ih n m x (by omega)

/-- Raising the value written at one position never lowers the sum. -/
lemma sum_set_mono :
    ∀ (l : List ℤ) (i : ℕ) (r r' : ℤ), r ≤ r' →
      (l.set i r).sum ≤ (l.set i r').sum := by
  intro l
  induction l with
  | nil => intro i r r' h; simp
  | cons a t ih =>
      intro i r r' h
      cases i with
      | zero => simp only [List.set, List.sum_cons]; linarith
      | succ n =>
          simp only [List.set, List.sum_cons]
          have := ih n r r' h
          linarith

/-- A list of values all at least 1 sums to at least its length. -/
lemma length_le_sum :
    ∀ l : List ℤ, (∀ x ∈ l, 1 ≤ x) → (l.length : ℤ) ≤ l.sum := by
  intro l
  induction l with
  | nil => intro h; simp
  | cons a t ih =>
      intro h
      have ha := h a (by simp)
      have ht := ih (fun x hx => h x (by simp [hx]))
      simp only [List.sum_cons, List.length_cons]
      push_cast
      linarith

/-- A list of values all at most 5 sums to at most 5 times its length. -/
lemma sum_le_five :
    ∀ l : List ℤ, (∀ x ∈ l, x ≤ 5) → l.sum ≤ 5 * l.length := by
  intro l
  induction l with
  | nil => intro h; simp
  | cons a t ih =>
      intro h
      have ha := h a (by simp)
      have ht := ih (fun x hx => h x (by simp [hx]))
      simp only [List.sum_cons, List.length_cons]
      push_cast
      linarith

/-- In this variant (`REVERSE_SCORED = []`) the rounding in
`calculate_final_score` is exact: the score is `sum / 25 * 10` on the
nose, since ten times that value is the integer `4 * sum`. -/
lemma cfs_exact (l : List ℤ) :
    calculate_final_score l = (l.sum : ℚ) / 25 * 10 := by
  unfold calculate_final_score calculate_final_score_with REVERSE_SCORED
  rw [total_score_nil]
  exact pyRound1_int_mul _ (4 * l.sum) (by push_cast; ring)

/-- Flagging index `i` as reverse-scored changes the total exactly as if
the rating at `i` had been replaced by its inversion. -/
lemma total_score_set (rev : List ℕ) (i : ℕ) (ratings : List ℤ)
    (hnot : i ∉ rev) (hlen : i < ratings.length) :
    total_score (i :: rev) ratings
      = total_score rev (ratings.set i (6 - ratings.getD i 0)) := by
  rw [total_score_eq, total_score_eq, List.length_set]
  apply Finset.sum_congr rfl
  intro j _
  by_cases hji : j = i
  · subst hji
    rw [getD_set_self _ _ _ hlen]
    simp [applyReverse, hnot, List.mem_cons]
  · rw [getD_set_ne _ _ _ _ hji]
    by_cases hr : j ∈ rev
    · simp only [applyReverse]
      rw [if_pos (List.mem_cons.mpr (Or.inr hr)), if_pos hr]
    · simp only [applyReverse]
      rw [if_neg (by simp [List.mem_cons, hji, hr]), if_neg hr]

/-- C1 counterexample: on the length-1 sequence `[5]` the code returns
`(5 / 25) * 10 = 2`, while the claimed formula `(sum / (5 * N)) * 10`
gives `10` — the divisor is the constant 25, not `5 * N`. -/
theorem C1_counterexample :
    calculate_final_score [5] = 2
    ∧ pyRound1 ((([5] : List ℤ).sum : ℚ) / (5 * ([5] : List ℤ).length) * 10) = 10
    ∧ (2 : ℚ) ≠ 10 := by
  refine ⟨?_, ?_, by norm_num⟩
  · rw [cfs_exact]; norm_num
  · have h : (([5] : List ℤ).sum : ℚ) / (5 * ([5] : List ℤ).length) * 10 = 10 := by
      norm_num
    rw [h]
    exact pyRound1_int_mul 10 100 (by norm_num)

/-- C1 (amended): the divisor is the hardcoded constant 25; only for the
configured question count (sequences of length 5, values in [1,5], no
reverse-scored index) does the final score equal
`(sum / (5 * N)) * 10` rounded to one decimal place. -/
theorem C1_amended (ratings : List ℤ) (hlen : ratings.length = 5)
    (hvals : ∀ r ∈ ratings, 1 ≤ r ∧ r ≤ 5) :
    calculate_final_score ratings
      = (ratings.sum : ℚ) / (5 * ratings.length) * 10 := by
  rw [cfs_exact, hlen]
  norm_num

/-- C1 witness: the amended statement at the concrete input
`[1, 2, 3, 4, 5]`. -/
theorem C1_witness :
    calculate_final_score [1, 2, 3, 4, 5]
      = (([1, 2, 3, 4, 5] : List ℤ).sum : ℚ)
          / (5 * ([1, 2, 3, 4, 5] : List ℤ).length) * 10 :=
  C1_amended [1, 2, 3, 4, 5] (by decide) (by decide)

/-- C2 counterexample: a failing service call is not converted to the
fallback rating 3 — the error propagates to the caller, because the call
on line 62 sits outside the try/except of lines 73-78. -/
theorem C2_counterexample :
    interpret_answer_with_chatgpt (Except.error "service unavailable")
        = Except.error "service unavailable"
    ∧ interpret_answer_with_chatgpt (Except.error "service unavailable")
        ≠ Except.ok 3 :=
  ⟨rfl, fun h => Except.noConfusion h⟩

/-- C2 (amended): when the service call succeeds, an unparsable or
out-of-range reply yields the fixed fallback rating 3; but a failure of
the call itself propagates to the caller instead of being replaced by the
fallback. -/
theorem C2_amended :
    (∀ raw : String, pyInt (pyStrip raw) = none →
        interpret_answer_with_chatgpt (Except.ok raw) = Except.ok 3)
    ∧ (∀ (raw : String) (n : ℤ), pyInt (pyStrip raw) = some n →
        (n < 1 ∨ 5 < n) →
        interpret_answer_with_chatgpt (Except.ok raw) = Except.ok 3)
    ∧ (∀ e : String,
        interpret_answer_with_chatgpt (Except.error e) = Except.error e) := by
  refine ⟨?_, ?_, fun e => rfl⟩
  · intro raw h
    simp [interpret_answer_with_chatgpt, interpretRating, h]
  · intro raw n h hout
    simp only [interpret_answer_with_chatgpt, interpretRating, h]
    rw [if_pos hout]

/-- C2 witness: the amended statement at the unparsable reply
`I am not sure` and the out-of-range reply `7`. -/
theorem C2_witness :
    interpret_answer_with_chatgpt (Except.ok "I am not sure") = Except.ok 3
    ∧ interpret_answer_with_chatgpt (Except.ok "7") = Except.ok 3 :=
  ⟨C2_amended.1 "I am not sure" (by decide),
   C2_amended.2.1 "7" 7 (by decide) (by decide)⟩

/-- C3 counterexample: on the empty rating sequence the aggregator does
not fail — it returns the numeric score 0. -/
theorem C3_counterexample : calculate_final_score [] = 0 := by
  rw [cfs_exact]; simp

/-- C3 (amended): the aggregator is total over all rating sequences; the
empty sequence yields the score 0 (no error is raised and no division by
zero occurs, the divisor being the constant 25), and every non-empty
sequence of in-range ratings yields a positive score. -/
theorem C3_amended :
    calculate_final_score [] = 0
    ∧ ∀ ratings : List ℤ, ratings ≠ [] →
        (∀ r ∈ ratings, 1 ≤ r ∧ r ≤ 5) → 0 < calculate_final_score ratings := by
  constructor
  · rw [cfs_exact]; simp
  · intro ratings hne hvals
    rw [cfs_exact]
    have h1 := length_le_sum ratings (fun x hx => (hvals x hx).1)
    have h2 : 0 < ratings.length := List.length_pos.mpr hne
    have h3 : (0 : ℤ) < ratings.sum := by omega
    have h4 : (0 : ℚ) < (ratings.sum : ℚ) := by exact_mod_cast h3
    positivity

/-- C3 witness: the amended statement at the concrete input `[3]`. -/
theorem C3_witness : 0 < calculate_final_score [3] :=
  C3_amended.2 [3] (by decide) (by decide)

/-- C4: the recommendation lookup is a pure four-way partition of the
score range with boundaries belonging to the lower band; in particular
3 is low, 3.1 moderate, 8 fairly-high and 8.1 high. -/
theorem C4 :
    (∀ score : ℚ,
      (score ≤ 3 → provide_recommendations score = RecommendationBand.low)
      ∧ (3 < score → score ≤ 6 →
          provide_recommendations score = RecommendationBand.moderate)
      ∧ (6 < score → score ≤ 8 →
          provide_recommendations score = RecommendationBand.fairlyHigh)
      ∧ (8 < score → provide_recommendations score = RecommendationBand.high))
    ∧ provide_recommendations 3 = RecommendationBand.low
    ∧ provide_recommendations (31 / 10) = RecommendationBand.moderate
    ∧ provide_recommendations 8 = RecommendationBand.fairlyHigh
    ∧ provide_recommendations (81 / 10) = RecommendationBand.high := by
  refine ⟨fun score => ⟨?_, ?_, ?_, ?_⟩, ?_, ?_, ?_, ?_⟩
  · intro h
    simp only [provide_recommendations]
    rw [if_pos h]
  · intro h3 h6
    simp only [provide_recommendations]
    rw [if_neg (by linarith), if_pos h6]
  · intro h6 h8
    simp only [provide_recommendations]
    rw [if_neg (by linarith), if_neg (by linarith), if_pos h8]
  · intro h8
    simp only [provide_recommendations]
    rw [if_neg (by linarith), if_neg (by linarith), if_neg (by linarith)]
  · simp only [provide_recommendations]
    rw [if_pos (by norm_num)]
  · simp only [provide_recommendations]
    rw [if_neg (by norm_num), if_pos (by norm_num)]
  · simp only [provide_recommendations]
    rw [if_neg (by norm_num), if_neg (by norm_num), if_pos (by norm_num)]
  · simp only [provide_recommendations]
    rw [if_neg (by norm_num), if_neg (by norm_num), if_neg (by norm_num)]

/-- C4 witness: the interval part of C4 at the concrete score 2. -/
theorem C4_witness : provide_recommendations 2 = RecommendationBand.low :=
  (C4.1 2).1 (by norm_num)

/-- C5: the rating at ordinal `i` is replaced by `6 - r` exactly when `i`
is reverse-scored; the inversion is an involution pairing 1 with 5 and
2 with 4 and fixing 3; and reverse-scoring one index changes the final
score exactly as if only that ordinal's rating had been inverted, every
other contribution unchanged. -/
theorem C5 :
    (∀ (rev : List ℕ) (i : ℕ) (r : ℤ),
        (i ∈ rev → applyReverse rev i r = 6 - r)
        ∧ (i ∉ rev → applyReverse rev i r = r))
    ∧ (∀ (rev : List ℕ) (i : ℕ) (r : ℤ), i ∈ rev →
        applyReverse rev i (applyReverse rev i r) = r)
    ∧ (∀ (rev : List ℕ) (i : ℕ), i ∈ rev →
        applyReverse rev i 1 = 5 ∧ applyReverse rev i 2 = 4
          ∧ applyReverse rev i 3 = 3 ∧ applyReverse rev i 4 = 2
          ∧ applyReverse rev i 5 = 1)
    ∧ (∀ (rev : List ℕ) (i : ℕ) (ratings : List ℤ),
        i ∉ rev → i < ratings.length →
        calculate_final_score_with (i :: rev) ratings
          = calculate_final_score_with rev
              (ratings.set i (6 - ratings.getD i 0))) := by
  refine ⟨?_, ?_, ?_, ?_⟩
  · intro rev i r
    exact ⟨fun h => by simp [applyReverse, h], fun h => by simp [applyReverse, h]⟩
  · intro rev i r h
    simp only [applyReverse, if_pos h]
    ring
  · intro rev i h
    refine ⟨?_, ?_, ?_, ?_, ?_⟩ <;> norm_num [applyReverse, h]
  · intro rev i ratings hnot hlen
    unfold calculate_final_score_with
    rw [total_score_set rev i ratings hnot hlen]

/-- C5 witness: involution at rating 2 on index 0, and the locality
statement on `[1, 2, 3]` with index 1 flipped. -/
theorem C5_witness :
    applyReverse [0] 0 (applyReverse [0] 0 2) = 2
    ∧ calculate_final_score_with [1] [1, 2, 3]
        = calculate_final_score_with []
            ([1, 2, 3].set 1 (6 - [1, 2, 3].getD 1 0)) :=
  ⟨C5.2.1 [0] 0 2 (by decide), C5.2.2.2 [] 1 [1, 2, 3] (by decide) (by decide)⟩

/-- C6: with no reverse-scored index, raising any single rating (others
fixed) never lowers the final score. -/
theorem C6 (ratings : List ℤ) (i : ℕ) (r r' : ℤ)
    (hvals : ∀ x ∈ ratings, 1 ≤ x ∧ x ≤ 5)
    (h1 : 1 ≤ r) (hrr : r ≤ r') (h5 : r' ≤ 5) :
    calculate_final_score (ratings.set i r)
      ≤ calculate_final_score (ratings.set i r') := by
  rw [cfs_exact, cfs_exact]
  have hs := sum_set_mono ratings i r r' hrr
  have hq : ((ratings.set i r).sum : ℚ) ≤ ((ratings.set i r').sum : ℚ) := by
    exact_mod_cast hs
  linarith

/-- C6 witness: raising the first rating of `[1, 1, 1]` from 2 to 3. -/
theorem C6_witness :
    calculate_final_score ([1, 1, 1].set 0 2)
      ≤ calculate_final_score ([1, 1, 1].set 0 3) :=
  C6 [1, 1, 1] 0 2 3 (by decide) (by decide) (by decide) (by decide)

/-- C7: whatever the service replies, the parsed-with-fallback rating lies
in the closed range [1, 5]. -/
theorem C7 (content : String) :
    1 ≤ interpretRating content ∧ interpretRating content ≤ 5 := by
  cases hp : pyInt (pyStrip content) with
  | none => simp only [interpretRating, hp]; omega
  | some r =>
      simp only [interpretRating, hp]
      split_ifs with h1 <;> omega

/-- C10: for length-5 sequences of in-range ratings with this variant's
empty reverse-scored set, the final score lies in [2, 10]; all ones give
exactly 2 and all fives exactly 10. -/
theorem C10 :
    (∀ ratings : List ℤ, ratings.length = 5 →
        (∀ r ∈ ratings, 1 ≤ r ∧ r ≤ 5) →
        2 ≤ calculate_final_score ratings ∧ calculate_final_score ratings ≤ 10)
    ∧ calculate_final_score [1, 1, 1, 1, 1] = 2
    ∧ calculate_final_score [5, 5, 5, 5, 5] = 10 := by
  refine ⟨?_, ?_, ?_⟩
  · intro ratings hlen hvals
    rw [cfs_exact]
    have h1 := length_le_sum ratings (fun x hx => (hvals x hx).1)
    have h2 := sum_le_five ratings (fun x hx => (hvals x hx).2)
    rw [hlen] at h1 h2
    have hl : (5 : ℚ) ≤ (ratings.sum : ℚ) := by exact_mod_cast h1
    have hu : ((ratings.sum : ℚ)) ≤ 25 := by
      have : ratings.sum ≤ 25 := by push_cast at h2; omega
      exact_mod_cast this
    constructor <;> linarith
  · have hs : ([1, 1, 1, 1, 1] : List ℤ).sum = 5 := by decide
    rw [cfs_exact, hs]; norm_num
  · have hs : ([5, 5, 5, 5, 5] : List ℤ).sum = 25 := by decide
    rw [cfs_exact, hs]; norm_num

/-- C10 witness: the range statement at the concrete input
`[1, 1, 1, 1, 5]`. -/
theorem C10_witness :
    2 ≤ calculate_final_score [1, 1, 1, 1, 5]
    ∧ calculate_final_score [1, 1, 1, 1, 5] ≤ 10 :=
  C10.1 [1, 1, 1, 1, 5] (by decide) (by decide)

/-- C8: the persisted blob for questions `Q1?`, `Q2?`, answers `yes`,
`no` and final score 7.5 is exactly the specified text, with this
variant's leading timestamp line. -/
theorem C8 :
    file_text "20250101_120000" ["Q1?", "Q2?"] ["yes", "no"] (75 / 10)
      = "Timestamp: 20250101_120000\nQ1: Q1?\nAnswer: yes\n\nQ2: Q2?\nAnswer: no\n\nFinal Score: 7.5" := by
  have hf : floatStr (75 / 10) = "7.5" := by
    rw [floatStr]
    norm_num
    decide
  simp only [file_text, file_content_lines, hf]
  rfl

/-- Prepending to a list keeps a present head. -/
lemma head?_append_some (l l' : List Char) (a : Char) (h : l.head? = some a) :
    (l ++ l').head? = some a := by
  cases l with
  | nil => simp at h
  | cons c t => simp at h; simp [h]

/-- The head surviving `dropWhile` fails the dropped predicate. -/
lemma dropWhile_head (p : Char → Bool) :
    ∀ (l : List Char) (a : Char), (l.dropWhile p).head? = some a → p a = false := by
  intro l
  induction l with
  | nil => intro a h; simp at h
  | cons b t ih =>
      intro a h
      by_cases hb : p b
      · rw [List.dropWhile_cons, if_pos hb] at h
        exact ih a h
      · rw [List.dropWhile_cons, if_neg hb] at h
        simp at h
        subst h
        simpa using hb

/-- `dropWhile` removes a prefix: the result completes to the input. -/
lemma dropWhile_suffix_ex (p : Char → Bool) :
    ∀ l : List Char, ∃ t, t ++ l.dropWhile p = l := by
  intro l
  induction l with
  | nil => exact ⟨[], rfl⟩
  | cons b t ih =>
      by_cases hb : p b
      · obtain ⟨u, hu⟩ := ih
        refine ⟨b :: u, ?_⟩
        rw [List.dropWhile_cons, if_pos hb]
        simpa using hu
      · refine ⟨[], ?_⟩
        rw [List.dropWhile_cons, if_neg hb]
        rfl

/-- A list whose head fails the predicate is untouched by `dropWhile`. -/
lemma dropWhile_eq_self (p : Char → Bool) (l : List Char)
    (h : ∀ a, l.head? = some a → p a = false) : l.dropWhile p = l := by
  cases l with
  | nil => rfl
  | cons b t =>
      have hb := h b (by simp)
      rw [List.dropWhile_cons, if_neg (by simp [hb])]

/-- A stripped list never starts with whitespace. -/
lemma pyStripList_head (l : List Char) (a : Char)
    (h : (pyStripList l).head? = some a) : Char.isWhitespace a = false := by
  unfold pyStripList at h
  obtain ⟨t, ht⟩ :=
    dropWhile_suffix_ex Char.isWhitespace (l.dropWhile Char.isWhitespace).reverse
  have hA : l.dropWhile Char.isWhitespace
      = ((l.dropWhile Char.isWhitespace).reverse.dropWhile
          Char.isWhitespace).reverse ++ t.reverse := by
    have h2 := congrArg List.reverse ht
    simpa [List.reverse_append] using h2.symm
  have hAhead : (l.dropWhile Char.isWhitespace).head? = some a := by
    rw [hA]
    exact head?_append_some _ _ _ h
  exact dropWhile_head Char.isWhitespace l a hAhead

/-- A stripped list never ends with whitespace. -/
lemma pyStripList_getLast (l : List Char) (a : Char)
    (h : (pyStripList l).getLast? = some a) : Char.isWhitespace a = false := by
  unfold pyStripList at h
  rw [List.getLast?_reverse] at h
  exact dropWhile_head Char.isWhitespace _ a h

/-- Stripping is idempotent on character lists. -/
lemma pyStripList_idem (l : List Char) :
    pyStripList (pyStripList l) = pyStripList l := by
  have h1 : (pyStripList l).dropWhile Char.isWhitespace = pyStripList l :=
    dropWhile_eq_self _ _ (fun a ha => pyStripList_head l a ha)
  have h2 : (pyStripList l).reverse.dropWhile Char.isWhitespace
      = (pyStripList l).reverse := by
    apply dropWhile_eq_self
    intro a ha
    rw [List.head?_reverse] at ha
    exact pyStripList_getLast l a ha
  show (((pyStripList l).dropWhile
      Char.isWhitespace).reverse.dropWhile Char.isWhitespace).reverse
    = pyStripList l
  rw [h1, h2, List.reverse_reverse]

/-- Stripping is idempotent on strings. -/
lemma pyStrip_idem (s : String) : pyStrip (pyStrip s) = pyStrip s := by
  show String.mk (pyStripList (String.mk (pyStripList s.data)).data)
    = String.mk (pyStripList s.data)
  rw [show (String.mk (pyStripList s.data)).data = pyStripList s.data from rfl,
    pyStripList_idem]

/-- C9: a blank collected answer is replaced by the fixed placeholder, a
non-blank answer is passed through stripped, and the text handed to the
interpreter is never blank. -/
theorem C9 :
    (∀ a : String, pyStrip a = "" → prepare_answer a = "No answer provided.")
    ∧ (∀ a : String, pyStrip a ≠ "" → prepare_answer a = pyStrip a)
    ∧ (∀ a : String, pyStrip (prepare_answer a) ≠ "") := by
  refine ⟨?_, ?_, ?_⟩
  · intro a h
    simp only [prepare_answer]
    rw [if_pos h]
  · intro a h
    simp only [prepare_answer]
    rw [if_neg h]
  · intro a
    by_cases h : pyStrip a = ""
    · simp only [prepare_answer]
      rw [if_pos h]
      decide
    · simp only [prepare_answer]
      rw [if_neg h, pyStrip_idem]
      exact h

/-- C9 witness: a whitespace-only answer and a padded answer. -/
theorem C9_witness :
    prepare_answer "   " = "No answer provided."
    ∧ prepare_answer " maybe " = pyStrip " maybe " :=
  ⟨C9.1 "   " (by decide), C9.2.1 " maybe " (by decide)⟩
